import Mathlib

/-!
Shallow embedding of the input-event transformation core of the xremap
key-remapping daemon (src/action.rs, src/event.rs, src/event_handler.rs).

Machine integers are modelled as `Nat` (u16 scancodes, with `% 65536`
where Rust wrapping arithmetic matters) and `Int` (i32 event values).
`HashSet`/`HashMap` state is modelled as lists holding the set/map
contents in some iteration order; `Instant`/`Duration` are `Nat`
timestamps passed explicitly as a `now` parameter.
-/

set_option linter.unusedVariables false

namespace Xremap

/-- An evdev scancode (`evdev::Key`): an opaque 16-bit code, modelled as `Nat`. -/
abbrev Key := Nat

/-- Linux input-event code of the left Shift key. -/
def KEY_LEFTSHIFT : Key := 42

/-- Linux input-event code of the right Shift key. -/
def KEY_RIGHTSHIFT : Key := 54

/-- Linux input-event code of the left Control key. -/
def KEY_LEFTCTRL : Key := 29

/-- Linux input-event code of the right Control key. -/
def KEY_RIGHTCTRL : Key := 97

/-- Linux input-event code of the left Alt key. -/
def KEY_LEFTALT : Key := 56

/-- Linux input-event code of the right Alt key. -/
def KEY_RIGHTALT : Key := 100

/-- Linux input-event code of the left Meta (Windows) key. -/
def KEY_LEFTMETA : Key := 125

/-- Linux input-event code of the right Meta (Windows) key. -/
def KEY_RIGHTMETA : Key := 126

/-- event_handler.rs `MODIFIER_KEYS`: the eight physical modifier keys. -/
def MODIFIER_KEYS : List Key :=
  [KEY_LEFTSHIFT, KEY_RIGHTSHIFT,
   KEY_LEFTCTRL, KEY_RIGHTCTRL,
   KEY_LEFTALT, KEY_RIGHTALT,
   KEY_LEFTMETA, KEY_RIGHTMETA]

/-- event_handler.rs: `static RELEASE: i32 = 0`. -/
def RELEASE : Int := 0

/-- event_handler.rs: `static PRESS: i32 = 1`. -/
def PRESS : Int := 1

/-- event_handler.rs: `static REPEAT: i32 = 2`. -/
def REPEAT : Int := 2

/-- event_handler.rs `is_pressed`. -/
def isPressed (value : Int) : Bool :=
  value == PRESS || value == REPEAT

/-- event_handler.rs `DISGUISED_EVENT_OFFSETTER`: offset added to disguised
relative-event scancodes. -/
def DISGUISED_EVENT_OFFSETTER : Nat := 59974

/-- event.rs `KeyValue`: the three legal key-event values. -/
inductive KeyValue where
  | press
  | release
  | repeat
deriving DecidableEq, Repr

/-- event.rs `KeyValue::new`: decode an i32 value; any value other than
0, 1, 2 yields `none`. -/
def KeyValue.new (value : Int) : Option KeyValue :=
  if value = 0 then some KeyValue.release
  else if value = 1 then some KeyValue.press
  else if value = 2 then some KeyValue.repeat
  else none

/-- event.rs `KeyValue::value`. -/
def KeyValue.value : KeyValue → Int
  | KeyValue.release => 0
  | KeyValue.press => 1
  | KeyValue.repeat => 2

/-- event.rs `KeyEvent`: a decoded key event (device handle omitted). -/
structure KeyEvent where
  key : Key
  value : KeyValue
deriving DecidableEq, Repr

/-- event.rs `KeyEvent::new_with`: build a `KeyEvent` from a raw code and
value. The source calls `KeyValue::new(value).unwrap()`, which panics on an
invalid value; the panic is modelled as `none`. -/
def KeyEvent.new_with (code : Nat) (value : Int) : Option KeyEvent :=
  (KeyValue.new value).map (fun kv => { key := code, value := kv })

/-- config::key_press::Modifier: logical Shift/Control/Alt/Windows match either
physical side; `key k` matches exactly `k`. -/
inductive Modifier where
  | shift
  | control
  | alt
  | windows
  | key (k : Key)
deriving DecidableEq, Repr

/-- config::key_press::KeyPress: the atomic chord emitted by the handler. -/
structure KeyPress where
  key : Key
  modifiers : List Modifier
deriving DecidableEq, Repr

/-- Modelled from the spec: config::application::Application matcher (the
config module is not part of the analysed sources).  `only`/`not` hold
literal application names; a matcher matches by string equality. -/
structure Application where
  only : Option (List String)
  no : Option (List String)
deriving DecidableEq, Repr

mutual

/-- config::keymap_action::KeymapAction: one action of a keymap entry. -/
inductive KeymapAction where
  | keyPress (kp : KeyPress)
  | remap (r : Remap)
  | launch (command : List String)
  | setMode (mode : String)
  | setMark (set : Bool)
  | withMark (kp : KeyPress)
  | escapeNextKey (b : Bool)
  | setExtraModifiers (keys : List Key)

/-- config::remap::Remap: a nested override table plus optional timeout.
Modelled from the spec for the payload shape (the config module is not part
of the analysed sources): the table is already in override-entry form. -/
inductive Remap where
  | mk (remap : List (Key × List OverrideEntry)) (timeout : Option Nat)
       (timeoutKey : Option Key)

/-- Modelled from the spec: the merged "OverrideEntry / keymap row" of the
data model (config::keymap is not part of the analysed sources).  Stage-1
override resolution ignores `application` and `mode`; stage-2 static keymap
resolution checks them. -/
inductive OverrideEntry where
  | mk (modifiers : List Modifier) (actions : List KeymapAction)
       (exactMatch : Bool) (application : Option Application)
       (mode : Option (List String))

end

/-- Field accessor for `OverrideEntry`. -/
def OverrideEntry.modifiers : OverrideEntry → List Modifier
  | OverrideEntry.mk m _ _ _ _ => m

/-- Field accessor for `OverrideEntry`. -/
def OverrideEntry.actions : OverrideEntry → List KeymapAction
  | OverrideEntry.mk _ a _ _ _ => a

/-- Field accessor for `OverrideEntry`. -/
def OverrideEntry.exactMatch : OverrideEntry → Bool
  | OverrideEntry.mk _ _ e _ _ => e

/-- Field accessor for `OverrideEntry`. -/
def OverrideEntry.application : OverrideEntry → Option Application
  | OverrideEntry.mk _ _ _ app _ => app

/-- Field accessor for `OverrideEntry`. -/
def OverrideEntry.mode : OverrideEntry → Option (List String)
  | OverrideEntry.mk _ _ _ _ m => m

/-- event_handler.rs `TaggedAction`. -/
structure TaggedAction where
  action : KeymapAction
  exactMatch : Bool

/-- config::modmap_action::ModmapAction. -/
inductive ModmapAction where
  | key (k : Key)
  | multiPurposeKey (held : Key) (alone : Key) (aloneTimeout : Nat)
  | pressReleaseKey (press : List KeymapAction) (release : List KeymapAction)

/-- event_handler.rs `MultiPurposeKeyState`; `alone_timeout_at` is `some t`
while the first press is still delayed, `none` once considered held. -/
structure MultiPurposeKeyState where
  held : Key
  alone : Key
  aloneTimeoutAt : Option Nat

/-- action.rs `Action`: output of the handler, consumed by the dispatcher. -/
inductive Action where
  | keyEvent (key : Key) (value : Int)
  | relativeEvent (code : Nat) (value : Int)
  | mouseMovementEventCollection (events : List (Nat × Int))
  | inputEvent (raw : Nat)
  | command (argv : List String)
  | delay (d : Nat)
deriving DecidableEq, Repr

/-- event.rs `Event`: input to the handler. -/
inductive Event where
  | keyEvent (code : Nat) (value : KeyValue)
  | relativeEvent (code : Nat) (value : Int)
  | otherEvents (raw : Nat)
  | overrideTimeout

/-- config::modmap::Modmap: one modmap block (device filter omitted; the
analysed `find_modmap` does not consult the device). -/
structure Modmap where
  remap : List (Key × ModmapAction)
  application : Option Application

/-- The parts of `Config` the handler reads. -/
structure Config where
  modmap : List Modmap
  keymapTable : List (Key × List OverrideEntry)
  virtualModifiers : List Key

/-- event_handler.rs `EventHandler` state.  `actions` is the buffered action
list; `overrideTimerArmed` models whether the one-shot `TimerFd` is set;
`appProbe` models what `application_client.current_application()` returns
(the per-event `application_cache` memo is observationally equivalent to
reading the probe, since the cache is cleared at the start of every key
event and the probe is deterministic within one event). -/
structure EventHandler where
  modifiers : List Key
  extraModifiers : List Key
  pressedKeys : List (Key × Key)
  appProbe : Option String
  multiPurposeKeys : List (Key × MultiPurposeKeyState)
  overrideRemaps : List (List (Key × List OverrideEntry))
  overrideTimeoutKey : Option Key
  overrideTimerArmed : Bool
  mode : String
  markSet : Bool
  escapeNextKey : Bool
  keypressDelay : Nat
  actions : List Action

/-- Lookup in an association list modelling a `HashMap`. -/
def assocGet {α : Type} (l : List (Key × α)) (k : Key) : Option α :=
  (l.find? (fun p => p.1 == k)).map (fun p => p.2)

/-- Insert (overwrite) in an association list modelling a `HashMap`. -/
def assocInsert {α : Type} (l : List (Key × α)) (k : Key) (v : α) :
    List (Key × α) :=
  l.filter (fun p => p.1 != k) ++ [(k, v)]

/-- Removal from an association list modelling a `HashMap`. -/
def assocRemove {α : Type} (l : List (Key × α)) (k : Key) : List (Key × α) :=
  l.filter (fun p => p.1 != k)

/-- Insertion into a list modelling a `HashSet`. -/
def insertKey (l : List Key) (k : Key) : List Key :=
  if l.contains k then l else l ++ [k]

/-- Removal from a list modelling a `HashSet`. -/
def removeKey (l : List Key) (k : Key) : List Key :=
  l.filter (fun x => x != k)

/-- event_handler.rs `send_action`: push onto the buffered action list. -/
def sendAction (s : EventHandler) (a : Action) : EventHandler :=
  { s with actions := s.actions ++ [a] }

/-- event_handler.rs `send_key`. -/
def sendKey (s : EventHandler) (key : Key) (value : Int) : EventHandler :=
  sendAction s (Action.keyEvent key value)

/-- event_handler.rs `send_keys`. -/
def sendKeys (s : EventHandler) (keys : List Key) (value : Int) : EventHandler :=
  keys.foldl (fun s k => sendKey s k value) s

/-- event_handler.rs `update_modifier`. -/
def updateModifier (s : EventHandler) (key : Key) (value : Int) : EventHandler :=
  if value = PRESS then { s with modifiers := insertKey s.modifiers key }
  else if value = RELEASE then { s with modifiers := removeKey s.modifiers key }
  else s

/-- event_handler.rs `contains_modifier`: does the modifier list cover the
physical key? -/
def containsModifier (modifiers : List Modifier) (key : Key) : Bool :=
  modifiers.any (fun m =>
    match m with
    | Modifier.shift => key == KEY_LEFTSHIFT || key == KEY_RIGHTSHIFT
    | Modifier.control => key == KEY_LEFTCTRL || key == KEY_RIGHTCTRL
    | Modifier.alt => key == KEY_LEFTALT || key == KEY_RIGHTALT
    | Modifier.windows => key == KEY_LEFTMETA || key == KEY_RIGHTMETA
    | Modifier.key k => key == k)

/-- event_handler.rs `match_modifier`, on the currently-pressed modifier set. -/
def matchModifier (pressed : List Key) (modifier : Modifier) : Bool :=
  match modifier with
  | Modifier.shift =>
      pressed.contains KEY_LEFTSHIFT || pressed.contains KEY_RIGHTSHIFT
  | Modifier.control =>
      pressed.contains KEY_LEFTCTRL || pressed.contains KEY_RIGHTCTRL
  | Modifier.alt =>
      pressed.contains KEY_LEFTALT || pressed.contains KEY_RIGHTALT
  | Modifier.windows =>
      pressed.contains KEY_LEFTMETA || pressed.contains KEY_RIGHTMETA
  | Modifier.key k => pressed.contains k

/-- event_handler.rs `diff_modifiers`: returns
`(extra_modifiers, missing_modifiers)` of the required modifier list against
the currently-pressed set. -/
def diffModifiers (pressed : List Key) (modifiers : List Modifier) :
    List Key × List Key :=
  let extra := pressed.filter (fun k => !(containsModifier modifiers k))
  let missing := modifiers.filterMap (fun m =>
    if matchModifier pressed m then none
    else
      match m with
      | Modifier.shift => some KEY_LEFTSHIFT
      | Modifier.control => some KEY_LEFTCTRL
      | Modifier.alt => some KEY_LEFTALT
      | Modifier.windows => some KEY_LEFTMETA
      | Modifier.key k => some k)
  (extra, missing)

/-- event_handler.rs `with_mark`: append Shift when the mark is set and no
physical Shift is currently pressed. -/
def withMark (s : EventHandler) (keyPress : KeyPress) : KeyPress :=
  if s.markSet && !(matchModifier s.modifiers Modifier.shift) then
    { key := keyPress.key, modifiers := keyPress.modifiers ++ [Modifier.shift] }
  else
    keyPress

/-- event_handler.rs `send_key_press`: emit a chord with its modifier
entourage. -/
def sendKeyPress (s : EventHandler) (keyPress : KeyPress) : EventHandler :=
  let (extra, missing) := diffModifiers s.modifiers keyPress.modifiers
  let extra := extra.filter (fun k =>
    MODIFIER_KEYS.contains k && !(s.extraModifiers.contains k))
  let missing := missing.filter (fun k => MODIFIER_KEYS.contains k)
  let s := sendKeys s missing PRESS
  let s := sendKeys s extra RELEASE
  let s := sendKey s keyPress.key PRESS
  let s := sendKey s keyPress.key RELEASE
  let s := sendAction s (Action.delay s.keypressDelay)
  let s := sendKeys s extra PRESS
  sendKeys s missing RELEASE

/-- event_handler.rs `run_command`. -/
def runCommand (s : EventHandler) (command : List String) : EventHandler :=
  sendAction s (Action.command command)

/-- event_handler.rs `is_remap`: every action of the entry is a `Remap`. -/
def isRemap (actions : List KeymapAction) : Bool :=
  actions.all (fun a =>
    match a with
    | KeymapAction.remap _ => true
    | _ => false)

/-- event_handler.rs `with_extra_modifiers`: wrap actions so extra modifiers
are virtually released around them. -/
def withExtraModifiers (actions : List KeymapAction) (extraModifiers : List Key)
    (exactMatch : Bool) : List TaggedAction :=
  (if extraModifiers.length > 0 then
    [{ action := KeymapAction.setExtraModifiers extraModifiers,
       exactMatch := exactMatch }]
   else []) ++
  actions.map (fun a => { action := a, exactMatch := exactMatch }) ++
  (if extraModifiers.length > 0 then
    [{ action := KeymapAction.setExtraModifiers [], exactMatch := exactMatch }]
   else [])

/-- Modelled from the spec: config::keymap::build_override_table (the config
module is not part of the analysed sources).  The remap payload is already
in override-entry form; the enclosing keypress's `exact_match` tag is
honored by forcing it onto entries. -/
def buildOverrideTable (table : List (Key × List OverrideEntry))
    (exactMatch : Bool) : List (Key × List OverrideEntry) :=
  table.map (fun p =>
    (p.1, p.2.map (fun e =>
      OverrideEntry.mk e.modifiers e.actions (e.exactMatch || exactMatch)
        e.application e.mode)))

/-- event_handler.rs `match_application`, with the memoized probe modelled as
`appProbe` (see `EventHandler`); a `none` probe yields the empty string. -/
def matchApplication (s : EventHandler) (matcher : Application) : Bool :=
  let application := s.appProbe.getD ""
  match matcher.only with
  | some only => only.any (fun m => m == application)
  | none =>
      match matcher.no with
      | some no => no.all (fun m => !(m == application))
      | none => false

/-- event_handler.rs `remove_override`: unset the timer, clear the override
stack and the timeout key. -/
def removeOverride (s : EventHandler) : EventHandler :=
  { s with overrideTimerArmed := false, overrideRemaps := [],
           overrideTimeoutKey := none }

/-- event_handler.rs `timeout_override`: emit the pending timeout key (when
set) as press+release, then `remove_override`. -/
def timeoutOverride (s : EventHandler) : EventHandler :=
  let s :=
    match s.overrideTimeoutKey with
    | some key => sendKey (sendKey s key PRESS) key RELEASE
    | none => s
  removeOverride s

/-- event_handler.rs `dispatch_action` (the `dispatch_actions` loop applies it
to each tagged action in order). -/
def dispatchAction (s : EventHandler) (action : TaggedAction) (key : Key) :
    EventHandler :=
  match action.action with
  | KeymapAction.keyPress kp => sendKeyPress s kp
  | KeymapAction.remap (Remap.mk remap timeout timeoutKey) =>
      let setTimeout := s.overrideRemaps.isEmpty
      let s := { s with overrideRemaps :=
        s.overrideRemaps ++ [buildOverrideTable remap action.exactMatch] }
      if setTimeout then
        match timeout with
        | some _ =>
            { s with overrideTimerArmed := true,
                     overrideTimeoutKey :=
                       match timeoutKey with
                       | some tk => some tk
                       | none => some key }
        | none => s
      else s
  | KeymapAction.launch command => runCommand s command
  | KeymapAction.setMode mode => { s with mode := mode }
  | KeymapAction.setMark set => { s with markSet := set }
  | KeymapAction.withMark kp => sendKeyPress s (withMark s kp)
  | KeymapAction.escapeNextKey b => { s with escapeNextKey := b }
  | KeymapAction.setExtraModifiers keys =>
      { s with extraModifiers := keys.foldl insertKey [] }

/-- event_handler.rs `dispatch_actions`. -/
def dispatchActions (s : EventHandler) (actions : List TaggedAction)
    (key : Key) : EventHandler :=
  actions.foldl (fun s a => dispatchAction s a key) s

/-- event_handler.rs `find_modmap`: first modmap block that has the key and
whose application matcher (when present) matches. -/
def findModmapGo (s : EventHandler) (key : Key) :
    List Modmap → Option ModmapAction
  | [] => none
  | modmap :: rest =>
      match assocGet modmap.remap key with
      | some keyAction =>
          match modmap.application with
          | some matcher =>
              if matchApplication s matcher then some keyAction
              else findModmapGo s key rest
          | none => some keyAction
      | none => findModmapGo s key rest

/-- event_handler.rs `find_modmap` over the whole config. -/
def findModmap (s : EventHandler) (cfg : Config) (key : Key) :
    Option ModmapAction :=
  findModmapGo s key cfg.modmap

/-- event_handler.rs `MultiPurposeKeyState::repeat` (mutates the state);
`now` models `Instant::now()`. -/
def MultiPurposeKeyState.repeat (st : MultiPurposeKeyState) (now : Nat) :
    MultiPurposeKeyState × List (Key × Int) :=
  match st.aloneTimeoutAt with
  | some t =>
      if now < t then (st, [])
      else ({ st with aloneTimeoutAt := none }, [(st.held, PRESS)])
  | none => (st, [(st.held, REPEAT)])

/-- event_handler.rs `MultiPurposeKeyState::release`; `now` models
`Instant::now()`. -/
def MultiPurposeKeyState.release (st : MultiPurposeKeyState) (now : Nat) :
    List (Key × Int) :=
  match st.aloneTimeoutAt with
  | some t =>
      if now < t then [(st.alone, PRESS), (st.alone, RELEASE)]
      else [(st.held, PRESS), (st.held, RELEASE)]
  | none => [(st.held, RELEASE)]

/-- event_handler.rs `MultiPurposeKeyState::force_held` (mutates the state). -/
def MultiPurposeKeyState.forceHeld (st : MultiPurposeKeyState) :
    MultiPurposeKeyState × List (Key × Int) :=
  match st.aloneTimeoutAt with
  | some _ => ({ st with aloneTimeoutAt := none }, [(st.held, PRESS)])
  | none => (st, [])

/-- event_handler.rs `dispatch_keys`: apply a modmap action to an incoming
(key, value).  The source's `panic!` on a value outside 0/1/2 is modelled as
an empty result; it is unreachable because callers derive values from
`KeyValue`. -/
def dispatchKeys (s : EventHandler) (keyAction : ModmapAction) (key : Key)
    (value : Int) (now : Nat) : EventHandler × List (Key × Int) :=
  match keyAction with
  | ModmapAction.key modmapKey => (s, [(modmapKey, value)])
  | ModmapAction.multiPurposeKey held alone aloneTimeout =>
      if value = PRESS then
        let st : MultiPurposeKeyState :=
          { held := held, alone := alone,
            aloneTimeoutAt := some (now + aloneTimeout) }
        ({ s with multiPurposeKeys := assocInsert s.multiPurposeKeys key st },
         [])
      else if value = REPEAT then
        match assocGet s.multiPurposeKeys key with
        | some st =>
            let (st2, out) := st.repeat now
            ({ s with multiPurposeKeys :=
                 assocInsert s.multiPurposeKeys key st2 }, out)
        | none => (s, [(key, value)])
      else if value = RELEASE then
        match assocGet s.multiPurposeKeys key with
        | some st =>
            ({ s with multiPurposeKeys := assocRemove s.multiPurposeKeys key },
             st.release now)
        | none => (s, [(key, value)])
      else (s, [])
  | ModmapAction.pressReleaseKey press release =>
      let s :=
        if value = PRESS || value = RELEASE then
          dispatchActions s
            ((if value = PRESS then press else release).map
              (fun a => { action := a, exactMatch := false })) key
        else s
      (s, [(key, value)])

/-- event_handler.rs `flush_timeout_keys`: any press forces all pending
multi-purpose keys into "held" and prepends their emissions. -/
def flushTimeoutKeys (s : EventHandler) (keyValues : List (Key × Int)) :
    EventHandler × List (Key × Int) :=
  if keyValues.any (fun kv => kv.2 == PRESS) then
    let step := s.multiPurposeKeys.foldl
      (fun (acc : List (Key × MultiPurposeKeyState) × List (Key × Int)) p =>
        let (st2, out) := p.2.forceHeld
        (acc.1 ++ [(p.1, st2)], acc.2 ++ out))
      ([], [])
    ({ s with multiPurposeKeys := step.1 }, step.2 ++ keyValues)
  else (s, keyValues)

/-- event_handler.rs `maintain_pressed_keys`: press-aliasing so a release
always pairs with the originally emitted key.  Applies only when the modmap
produced a single entry whose value equals the incoming value. -/
def maintainPressedKeys (s : EventHandler) (key : Key) (value : Int)
    (events : List (Key × Int)) : EventHandler × List (Key × Int) :=
  match events with
  | [(k0, v0)] =>
      if value ≠ v0 then (s, [(k0, v0)])
      else if value = PRESS then
        ({ s with pressedKeys := assocInsert s.pressedKeys key k0 },
         [(k0, v0)])
      else
        let events :=
          match assocGet s.pressedKeys key with
          | some originalKey => [(originalKey, v0)]
          | none => [(k0, v0)]
        if value = RELEASE then
          ({ s with pressedKeys := assocRemove s.pressedKeys key }, events)
        else (s, events)
  | es => (s, es)

/-- event_handler.rs `find_keymap` stage-1 inner loop over flattened override
entries for one exact-match pass, with the `remaps` accumulator. -/
def resolveOverrideLoop (pressed : List Key) (exact : Bool)
    (remaps : List TaggedAction) :
    List OverrideEntry → Option (List TaggedAction)
  | [] => if remaps.isEmpty then none else some remaps
  | entry :: rest =>
      if entry.exactMatch && !exact then
        resolveOverrideLoop pressed exact remaps rest
      else
        let (extra, missing) := diffModifiers pressed entry.modifiers
        if (exact && extra.length > 0) || missing.length > 0 then
          resolveOverrideLoop pressed exact remaps rest
        else
          let actions := withExtraModifiers entry.actions extra entry.exactMatch
          if remaps.isEmpty && !(isRemap entry.actions) then some actions
          else if isRemap entry.actions then
            resolveOverrideLoop pressed exact (remaps ++ actions) rest
          else resolveOverrideLoop pressed exact remaps rest

/-- event_handler.rs `find_keymap` stage-2 inner loop over the static keymap
entries for one exact-match pass; additionally filters by application and
mode. -/
def resolveStaticLoop (s : EventHandler) (exact : Bool)
    (remaps : List TaggedAction) :
    List OverrideEntry → Option (List TaggedAction)
  | [] => if remaps.isEmpty then none else some remaps
  | entry :: rest =>
      if entry.exactMatch && !exact then resolveStaticLoop s exact remaps rest
      else
        let (extra, missing) := diffModifiers s.modifiers entry.modifiers
        if (exact && extra.length > 0) || missing.length > 0 then
          resolveStaticLoop s exact remaps rest
        else if (match entry.application with
                 | some matcher => !(matchApplication s matcher)
                 | none => false) then
          resolveStaticLoop s exact remaps rest
        else if (match entry.mode with
                 | some modes => !(modes.contains s.mode)
                 | none => false) then
          resolveStaticLoop s exact remaps rest
        else
          let actions := withExtraModifiers entry.actions extra entry.exactMatch
          if remaps.isEmpty && !(isRemap entry.actions) then some actions
          else if isRemap entry.actions then
            resolveStaticLoop s exact (remaps ++ actions) rest
          else resolveStaticLoop s exact remaps rest

/-- event_handler.rs `find_keymap` stage-1 entry flattening: entries for the
key across all stacked override tables, in stack order. -/
def overrideEntries (s : EventHandler) (key : Key) : List OverrideEntry :=
  (s.overrideRemaps.map (fun table => (assocGet table key).getD [])).flatten

/-- event_handler.rs `find_keymap` stage 2 (static keymap table): the two
exact-match passes over the entries of the pressed key. -/
def findKeymapStatic (s : EventHandler) (cfg : Config) (key : Key) :
    Option (List TaggedAction) :=
  match assocGet cfg.keymapTable key with
  | some entries =>
      match resolveStaticLoop s true [] entries with
      | some a => some a
      | none => resolveStaticLoop s false [] entries
  | none => none

/-- event_handler.rs `find_keymap`: stage-1 override-stack resolution (with
consumption and timeout flush), falling through to the static keymap. -/
def findKeymap (s : EventHandler) (cfg : Config) (key : Key) :
    Option (List TaggedAction) × EventHandler :=
  if !s.overrideRemaps.isEmpty then
    let entries := overrideEntries s key
    if !entries.isEmpty then
      let s := removeOverride s
      match resolveOverrideLoop s.modifiers true [] entries with
      | some a => (some a, s)
      | none =>
          match resolveOverrideLoop s.modifiers false [] entries with
          | some a => (some a, s)
          | none =>
              let s := timeoutOverride s
              (findKeymapStatic s cfg key, s)
    else
      let s := timeoutOverride s
      (findKeymapStatic s cfg key, s)
  else (findKeymapStatic s cfg key, s)

/-- One iteration of the `for (key, value) in key_values` loop at the end of
event_handler.rs `on_key_event`; the bool is `send_original_relative_event`. -/
def onKeyEventStep (cfg : Config) (origCode : Nat) (origValue : Int)
    (now : Nat) (s : EventHandler) (flag : Bool) (key : Key) (value : Int) :
    EventHandler × Bool :=
  if cfg.virtualModifiers.contains key then
    (updateModifier s key value, flag)
  else
    let step :=
      if MODIFIER_KEYS.contains key then (updateModifier s key value, false)
      else if isPressed value then
        if s.escapeNextKey then ({ s with escapeNextKey := false }, false)
        else
          match findKeymap s cfg key with
          | (some actions, s1) => (dispatchActions s1 actions key, true)
          | (none, s1) => (s1, false)
      else (s, false)
    if step.2 then (step.1, flag)
    else if decide (DISGUISED_EVENT_OFFSETTER ≤ key) && key == origCode &&
            value == origValue then
      (step.1, true)
    else (sendKey step.1 key value, flag)

/-- The "Apply modmap" stage at the top of event_handler.rs `on_key_event`. -/
def modmapStage (s : EventHandler) (cfg : Config) (key : Key) (value : Int)
    (now : Nat) : EventHandler × List (Key × Int) :=
  match findModmap s cfg key with
  | some keyAction => dispatchKeys s keyAction key value now
  | none => (s, [(key, value)])

/-- The multi-purpose flush stage of event_handler.rs `on_key_event`. -/
def flushStage (p : EventHandler × List (Key × Int)) :
    EventHandler × List (Key × Int) :=
  if !p.1.multiPurposeKeys.isEmpty then flushTimeoutKeys p.1 p.2 else p

/-- event_handler.rs `on_key_event`; the returned bool is
`send_original_relative_event`.  `now` models `Instant::now()` during this
event. -/
def onKeyEvent (s : EventHandler) (cfg : Config) (now : Nat) (code : Nat)
    (value : Int) : EventHandler × Bool :=
  let key := code
  let p1 := modmapStage s cfg key value now
  let p2 := maintainPressedKeys p1.1 key value p1.2
  let p3 := flushStage p2
  p3.2.foldl
    (fun sb kv => onKeyEventStep cfg code value now sb.1 sb.2 kv.1 kv.2)
    (p3.1, false)

/-- event_handler.rs `on_relative_event` scancode construction, in wrapping
16-bit arithmetic (each u16 operation wraps mod 2^16; a single trailing
`% 65536` is equal to per-operation wrapping here). -/
def disguise (code : Nat) (value : Int) : Nat :=
  if 1 ≤ value then (code * 2 + DISGUISED_EVENT_OFFSETTER) % 65536
  else if value ≤ -1 then (code * 2 + 1 + DISGUISED_EVENT_OFFSETTER) % 65536
  else (code * 2 + DISGUISED_EVENT_OFFSETTER) % 65536

/-- event_handler.rs `on_relative_event`: disguise the event as a fake key
press/release pair; re-emit the original when the press passed through
unchanged, buffering pointer-axis codes (≤ 2) into the mouse-motion
collection. -/
def onRelativeEvent (s : EventHandler) (mouseMovementCollection : List (Nat × Int))
    (cfg : Config) (now : Nat) (code : Nat) (value : Int) :
    EventHandler × List (Nat × Int) :=
  let key := disguise code value
  let r1 := onKeyEvent s cfg now key PRESS
  let p :=
    if r1.2 then
      if code ≤ 2 then (r1.1, mouseMovementCollection ++ [(code, value)])
      else (sendAction r1.1 (Action.relativeEvent code value),
            mouseMovementCollection)
    else (r1.1, mouseMovementCollection)
  let r2 := onKeyEvent p.1 cfg now key RELEASE
  (r2.1, p.2)

/-- One iteration of the event loop inside event_handler.rs `on_events`. -/
def onEventsStep (cfg : Config) (now : Nat)
    (acc : EventHandler × List (Nat × Int)) (event : Event) :
    EventHandler × List (Nat × Int) :=
  match event with
  | Event.keyEvent code v => ((onKeyEvent acc.1 cfg now code v.value).1, acc.2)
  | Event.relativeEvent code value =>
      onRelativeEvent acc.1 acc.2 cfg now code value
  | Event.otherEvents raw => (sendAction acc.1 (Action.inputEvent raw), acc.2)
  | Event.overrideTimeout => (timeoutOverride acc.1, acc.2)

/-- event_handler.rs `on_events`: process a batch, append the coalesced
mouse-motion collection when non-empty, and drain the buffered actions. -/
def onEvents (s : EventHandler) (cfg : Config) (now : Nat)
    (events : List Event) : EventHandler × List Action :=
  let p := events.foldl (onEventsStep cfg now) (s, [])
  let s2 :=
    if p.2.length > 0 then
      sendAction p.1 (Action.mouseMovementEventCollection p.2)
    else p.1
  ({ s2 with actions := [] }, s2.actions)

/-! Helper lemmas. -/

/-- Unfolding lemma for `sendKeys`: it appends one key event per key and
changes nothing else. -/
theorem sendKeys_eq (s : EventHandler) (keys : List Key) (v : Int) :
    sendKeys s keys v
      = { s with actions := s.actions ++ keys.map (fun k => Action.keyEvent k v) } := by
  induction keys generalizing s with
  | nil => simp [sendKeys]
  | cons k rest ih =>
      have h1 : sendKeys s (k :: rest) v = sendKeys (sendKey s k v) rest v := rfl
      rw [h1, ih]
      simp [sendKey, sendAction]

/-- Unfolding lemma for `sendKeys`: the appended action list. -/
theorem sendKeys_actions (s : EventHandler) (keys : List Key) (v : Int) :
    (sendKeys s keys v).actions
      = s.actions ++ keys.map (fun k => Action.keyEvent k v) := by
  rw [sendKeys_eq]

/-- Unfolding lemma for `sendAction` as a record update. -/
theorem sendAction_eq (s : EventHandler) (a : Action) :
    sendAction s a = { s with actions := s.actions ++ [a] } := rfl

/-- Unfolding lemma for `sendKey` as a record update. -/
theorem sendKey_eq (s : EventHandler) (k : Key) (v : Int) :
    sendKey s k v = { s with actions := s.actions ++ [Action.keyEvent k v] } :=
  rfl

/-- Unfolding lemma for `updateModifier` as a record update: only
`modifiers` changes. -/
theorem updateModifier_eq (s : EventHandler) (k : Key) (v : Int) :
    updateModifier s k v
      = { s with modifiers :=
            if v = PRESS then insertKey s.modifiers k
            else if v = RELEASE then removeKey s.modifiers k
            else s.modifiers } := by
  unfold updateModifier
  split_ifs <;> rfl

/-- Lookup after insert in the association-list map model. -/
theorem assocGet_insert_self {α : Type} (l : List (Key × α)) (k : Key) (v : α) :
    assocGet (assocInsert l k v) k = some v := by
  unfold assocGet assocInsert
  induction l with
  | nil => simp
  | cons p rest ih =>
      by_cases h : p.1 = k <;> simp [h, ih]

/-! C9. -/

/-- C9: `KeyValue::new v` returns `some` iff `v ∈ {0, 1, 2}`, decoding
0→Release, 1→Press, 2→Repeat with `value` round-tripping back to `v`, and
`KeyEvent::new_with` fails (the modelled panic of `.unwrap()`) on every
other integer value. -/
theorem keyValue_new_spec (v : Int) (code : Nat) :
    ((KeyValue.new v).isSome ↔ (v = 0 ∨ v = 1 ∨ v = 2)) ∧
    (KeyValue.new 0 = some KeyValue.release ∧
     KeyValue.new 1 = some KeyValue.press ∧
     KeyValue.new 2 = some KeyValue.repeat) ∧
    (∀ kv, KeyValue.new v = some kv → kv.value = v) ∧
    ((KeyEvent.new_with code v).isSome ↔ (v = 0 ∨ v = 1 ∨ v = 2)) := by
  have hmain : (KeyValue.new v).isSome ↔ (v = 0 ∨ v = 1 ∨ v = 2) := by
    unfold KeyValue.new
    split_ifs with h1 h2 h3 <;> simp_all
  refine ⟨hmain, ⟨rfl, rfl, rfl⟩, ?_, ?_⟩
  · intro kv hkv
    unfold KeyValue.new at hkv
    split_ifs at hkv with h1 h2 h3 <;>
      (try cases hkv) <;> simp_all [KeyValue.value]
  · unfold KeyEvent.new_with
    cases hn : KeyValue.new v <;> simp_all

/-- C9 witness: concrete decode plus round-trip and a concrete rejection. -/
theorem keyValue_new_spec_witness :
    KeyValue.value KeyValue.press = 1 ∧ ¬ (KeyEvent.new_with 30 5).isSome :=
  ⟨(keyValue_new_spec 1 30).2.2.1 KeyValue.press (by decide),
   fun h => by
     have := ((keyValue_new_spec 5 30).2.2.2).mp h
     omega⟩

/-! C3. -/

/-- C3: `MultiPurposeKeyState::release` emits the alone press+release while
still within the alone timeout, the held press+release once the timeout
instant is reached or passed (in particular at exactly the timeout instant),
and only the held release when the timeout has already been observed
(`alone_timeout_at` cleared). -/
theorem multiPurposeKey_release_spec (h a : Key) (t now : Nat) :
    (now < t →
      MultiPurposeKeyState.release
          { held := h, alone := a, aloneTimeoutAt := some t } now
        = [(a, PRESS), (a, RELEASE)]) ∧
    (t ≤ now →
      MultiPurposeKeyState.release
          { held := h, alone := a, aloneTimeoutAt := some t } now
        = [(h, PRESS), (h, RELEASE)]) ∧
    (MultiPurposeKeyState.release
        { held := h, alone := a, aloneTimeoutAt := none } now
      = [(h, RELEASE)]) ∧
    (MultiPurposeKeyState.release
        { held := h, alone := a, aloneTimeoutAt := some t } t
      = [(h, PRESS), (h, RELEASE)]) := by
  refine ⟨?_, ?_, rfl, ?_⟩
  · intro hlt
    simp [MultiPurposeKeyState.release, hlt]
  · intro hle
    simp [MultiPurposeKeyState.release, Nat.not_lt.mpr hle]
  · simp [MultiPurposeKeyState.release]

/-- C3 witness: an early release emits the alone pair; a release exactly at
the timeout instant emits the held pair. -/
theorem multiPurposeKey_release_spec_witness :
    MultiPurposeKeyState.release
        { held := 29, alone := 1, aloneTimeoutAt := some 10 } 3
      = [(1, PRESS), (1, RELEASE)] ∧
    MultiPurposeKeyState.release
        { held := 29, alone := 1, aloneTimeoutAt := some 10 } 10
      = [(29, PRESS), (29, RELEASE)] :=
  ⟨(multiPurposeKey_release_spec 29 1 10 3).1 (by decide),
   (multiPurposeKey_release_spec 29 1 10 10).2.1 (by decide)⟩

/-! C2. -/

/-- C2 counterexample: over the full 16-bit code range the claim fails in
wrapping u16 arithmetic — code 2781 with a positive value wraps to scancode
0 < 59974, and codes 0 and 32768 produce the same scancode. -/
theorem disguise_full_range_counterexample :
    disguise 2781 1 < DISGUISED_EVENT_OFFSETTER ∧
    disguise 0 1 = disguise 32768 1 ∧ (0 : Nat) ≠ 32768 := by
  decide

/-- On codes small enough that no 16-bit wrap can occur, the disguised
scancode is the plain affine encoding. -/
theorem disguise_unwrapped_eq (c : Nat) (v : Int) (hc : c ≤ 2780) :
    disguise c v
      = c * 2 + (if v < 0 then 1 else 0) + DISGUISED_EVENT_OFFSETTER := by
  unfold disguise DISGUISED_EVENT_OFFSETTER
  split_ifs with h1 h2 <;> rw [Nat.mod_eq_of_lt (by omega)] <;> omega

/-- C2 amended: restricted to codes where the u16 arithmetic cannot wrap
(code ≤ 2780; every real relative-event code is ≤ 15), the disguise function
yields a scancode ≥ DISGUISED_EVENT_OFFSETTER and is injective on
(code, sign-of-value) pairs, value 0 counting as positive. -/
theorem disguise_spec (c1 c2 : Nat) (v1 v2 : Int)
    (h1 : c1 ≤ 2780) (h2 : c2 ≤ 2780) :
    DISGUISED_EVENT_OFFSETTER ≤ disguise c1 v1 ∧
    (disguise c1 v1 = disguise c2 v2 → c1 = c2 ∧ (v1 < 0 ↔ v2 < 0)) := by
  rw [disguise_unwrapped_eq c1 v1 h1, disguise_unwrapped_eq c2 v2 h2]
  unfold DISGUISED_EVENT_OFFSETTER
  constructor
  · omega
  · intro h
    by_cases hb1 : v1 < 0 <;> by_cases hb2 : v2 < 0 <;>
      simp [hb1, hb2] at h ⊢ <;> omega

/-- C2 witness: the amended statement at code 8, values 1 and -1. -/
theorem disguise_spec_witness :
    DISGUISED_EVENT_OFFSETTER ≤ disguise 8 1 ∧
    (disguise 8 1 = disguise 8 (-1) → 8 = 8 ∧ ((1 : Int) < 0 ↔ (-1 : Int) < 0)) :=
  disguise_spec 8 8 1 (-1) (by decide) (by decide)

/-- A fresh handler state, as built by `EventHandler::new` (keypress delay 0,
empty buffers). -/
def baseState : EventHandler :=
  { modifiers := [], extraModifiers := [], pressedKeys := [], appProbe := none,
    multiPurposeKeys := [], overrideRemaps := [], overrideTimeoutKey := none,
    overrideTimerArmed := false, mode := "default", markSet := false,
    escapeNextKey := false, keypressDelay := 0, actions := [] }

/-! C1. -/

/-- The WithMark transformation as the claim words it: append Shift exactly
when the mark is set and the keypress does not already require Shift;
otherwise leave the keypress unchanged. -/
def withMarkClaimed (markSet : Bool) (keyPress : KeyPress) : KeyPress :=
  if markSet = true ∧ Modifier.shift ∉ keyPress.modifiers then
    { key := keyPress.key,
      modifiers := keyPress.modifiers ++ [Modifier.shift] }
  else keyPress

/-- C1 counterexample: with the mark set and no physical Shift pressed, a
keypress that already requires Shift is NOT emitted unchanged — the code
consults the handler's currently-pressed modifier set, not the keypress's
own modifier list, and appends a second Shift. -/
theorem withMark_claim_counterexample :
    withMark { baseState with markSet := true }
        { key := 30, modifiers := [Modifier.shift] }
      ≠ withMarkClaimed true { key := 30, modifiers := [Modifier.shift] } := by
  decide

/-- C1 amended: a dispatched WithMark(kp) emits kp with Shift appended
exactly when the mark is set and no physical Shift key (left or right) is in
the handler's currently-pressed modifier set; in every other case kp is
emitted unchanged.  The keypress's own required modifiers are not
consulted. -/
theorem withMark_dispatch_spec (s : EventHandler) (kp : KeyPress) (k : Key)
    (em : Bool) :
    ((s.markSet = true ∧
        ¬ (KEY_LEFTSHIFT ∈ s.modifiers ∨ KEY_RIGHTSHIFT ∈ s.modifiers)) →
      dispatchAction s { action := KeymapAction.withMark kp, exactMatch := em } k
        = sendKeyPress s
            { key := kp.key, modifiers := kp.modifiers ++ [Modifier.shift] }) ∧
    ((s.markSet = false ∨ KEY_LEFTSHIFT ∈ s.modifiers ∨
        KEY_RIGHTSHIFT ∈ s.modifiers) →
      dispatchAction s { action := KeymapAction.withMark kp, exactMatch := em } k
        = sendKeyPress s kp) := by
  constructor
  · rintro ⟨hm, hsh⟩
    push_neg at hsh
    simp [dispatchAction, withMark, matchModifier, hm, hsh.1, hsh.2]
  · intro hcase
    rcases hcase with hm | hs | hs
    · simp [dispatchAction, withMark, hm]
    · simp [dispatchAction, withMark, matchModifier, hs]
    · simp [dispatchAction, withMark, matchModifier, hs]

/-- C1 witness: both directions of the amended statement at concrete
inputs. -/
theorem withMark_dispatch_spec_witness :
    dispatchAction { baseState with markSet := true }
        { action := KeymapAction.withMark { key := 30, modifiers := [] },
          exactMatch := false } 30
      = sendKeyPress { baseState with markSet := true }
          { key := 30, modifiers := [Modifier.shift] } ∧
    dispatchAction baseState
        { action := KeymapAction.withMark { key := 30, modifiers := [] },
          exactMatch := false } 30
      = sendKeyPress baseState { key := 30, modifiers := [] } :=
  ⟨(withMark_dispatch_spec { baseState with markSet := true }
      { key := 30, modifiers := [] } 30 false).1 ⟨rfl, by simp [baseState]⟩,
   (withMark_dispatch_spec baseState
      { key := 30, modifiers := [] } 30 false).2 (Or.inl rfl)⟩

/-! C10. -/

/-- C10: press-aliasing behavior of `maintain_pressed_keys` — a single-entry
REPEAT for a key aliased to k' is rewritten to emit k' with the mapping
retained; a non-RELEASE value never removes an existing mapping; and the
function changes nothing when the produced entry list does not have exactly
one entry carrying the incoming value (the multi-purpose expansion case). -/
theorem maintainPressedKeys_spec (s : EventHandler) (k k' e0 : Key)
    (v : Int) (events : List (Key × Int)) :
    (assocGet s.pressedKeys k = some k' →
      maintainPressedKeys s k REPEAT [(e0, REPEAT)] = (s, [(k', REPEAT)])) ∧
    ((assocGet s.pressedKeys k).isSome → v ≠ RELEASE →
      (assocGet ((maintainPressedKeys s k v events).1.pressedKeys) k).isSome) ∧
    (events.length ≠ 1 ∨ events.all (fun p => p.2 != v) →
      maintainPressedKeys s k v events = (s, events)) := by
  refine ⟨?_, ?_, ?_⟩
  · intro hget
    norm_num [maintainPressedKeys, REPEAT, PRESS, RELEASE, hget]
  · intro hsome hnr
    rcases events with _ | ⟨⟨k0, v0⟩, rest⟩
    · simpa [maintainPressedKeys] using hsome
    · rcases rest with _ | ⟨b, rest⟩
      · by_cases hv : v = v0
        · subst hv
          by_cases hp : v = PRESS
          · simp [maintainPressedKeys, hp, assocGet_insert_self]
          · have hnr' : ¬ v = RELEASE := hnr
            simpa [maintainPressedKeys, hp, hnr'] using hsome
        · simpa [maintainPressedKeys, hv] using hsome
      · simpa [maintainPressedKeys] using hsome
  · intro hcase
    rcases events with _ | ⟨⟨k0, v0⟩, rest⟩
    · simp [maintainPressedKeys]
    · rcases rest with _ | ⟨b, rest⟩
      · rcases hcase with hlen | hall
        · simp at hlen
        · have hv : v0 != v := by simpa using hall
          have hv' : ¬ v = v0 := by
            simp only [bne_iff_ne, ne_eq] at hv
            exact fun h => hv h.symm
          simp [maintainPressedKeys, hv']
      · simp [maintainPressedKeys]

/-- A handler state with key 30 press-aliased to key 31, for the C10
witness. -/
def pressedState : EventHandler :=
  { baseState with pressedKeys := [(30, 31)] }

/-- C10 witness: all three parts at concrete inputs. -/
theorem maintainPressedKeys_spec_witness :
    maintainPressedKeys pressedState 30 REPEAT [(30, REPEAT)]
      = (pressedState, [(31, REPEAT)]) ∧
    (assocGet ((maintainPressedKeys pressedState 30 PRESS
        [(30, PRESS)]).1.pressedKeys) 30).isSome ∧
    maintainPressedKeys pressedState 30 PRESS [] = (pressedState, []) :=
  ⟨(maintainPressedKeys_spec pressedState 30 31 30 PRESS []).1 rfl,
   (maintainPressedKeys_spec pressedState 30 31 30 PRESS [(30, PRESS)]).2.1
     (by decide) (by decide),
   (maintainPressedKeys_spec pressedState 30 31 30 PRESS []).2.2
     (Or.inl (by decide))⟩

/-! C6. -/

/-- Unfolding lemma for `send_key_press`: the emitted action list is the
symmetric modifier entourage around the main press/release and delay. -/
theorem sendKeyPress_actions_eq (s : EventHandler) (kp : KeyPress) :
    (sendKeyPress s kp).actions
      = s.actions
        ++ (((diffModifiers s.modifiers kp.modifiers).2.filter
              (fun k => MODIFIER_KEYS.contains k)).map
            (fun k => Action.keyEvent k PRESS))
        ++ (((diffModifiers s.modifiers kp.modifiers).1.filter
              (fun k => MODIFIER_KEYS.contains k &&
                !(s.extraModifiers.contains k))).map
            (fun k => Action.keyEvent k RELEASE))
        ++ [Action.keyEvent kp.key PRESS, Action.keyEvent kp.key RELEASE,
            Action.delay s.keypressDelay]
        ++ (((diffModifiers s.modifiers kp.modifiers).1.filter
              (fun k => MODIFIER_KEYS.contains k &&
                !(s.extraModifiers.contains k))).map
            (fun k => Action.keyEvent k PRESS))
        ++ (((diffModifiers s.modifiers kp.modifiers).2.filter
              (fun k => MODIFIER_KEYS.contains k)).map
            (fun k => Action.keyEvent k RELEASE)) := by
  simp [sendKeyPress, sendKeys_eq, sendKey_eq, sendAction_eq,
    List.append_assoc]

/-- C6: `send_key_press` brackets the main keypress symmetrically with its
modifier entourage — the filtered missing modifiers pressed, then the
filtered extra modifiers released, the main press/release and the delay,
then the extras re-pressed and the missings re-released; and when the
required modifiers match the currently pressed modifiers exactly (each
required modifier is satisfied and each pressed modifier is covered), the
entourage is empty and the output is exactly press, release, delay. -/
theorem sendKeyPress_entourage_spec (s : EventHandler) (kp : KeyPress) :
    ((sendKeyPress s kp).actions
      = s.actions
        ++ (((diffModifiers s.modifiers kp.modifiers).2.filter
              (fun k => MODIFIER_KEYS.contains k)).map
            (fun k => Action.keyEvent k PRESS))
        ++ (((diffModifiers s.modifiers kp.modifiers).1.filter
              (fun k => MODIFIER_KEYS.contains k &&
                !(s.extraModifiers.contains k))).map
            (fun k => Action.keyEvent k RELEASE))
        ++ [Action.keyEvent kp.key PRESS, Action.keyEvent kp.key RELEASE,
            Action.delay s.keypressDelay]
        ++ (((diffModifiers s.modifiers kp.modifiers).1.filter
              (fun k => MODIFIER_KEYS.contains k &&
                !(s.extraModifiers.contains k))).map
            (fun k => Action.keyEvent k PRESS))
        ++ (((diffModifiers s.modifiers kp.modifiers).2.filter
              (fun k => MODIFIER_KEYS.contains k)).map
            (fun k => Action.keyEvent k RELEASE))) ∧
    ((∀ m ∈ kp.modifiers, matchModifier s.modifiers m) →
     (∀ k ∈ s.modifiers, containsModifier kp.modifiers k) →
      (sendKeyPress s kp).actions
        = s.actions ++ [Action.keyEvent kp.key PRESS,
                        Action.keyEvent kp.key RELEASE,
                        Action.delay s.keypressDelay]) := by
  have hgen := sendKeyPress_actions_eq s kp
  refine ⟨hgen, ?_⟩
  intro hmiss hextra
  have h2 : (diffModifiers s.modifiers kp.modifiers).2 = [] := by
    simp only [diffModifiers]
    rw [List.filterMap_eq_nil_iff]
    intro m hm
    simp [hmiss m hm]
  have h1 : (diffModifiers s.modifiers kp.modifiers).1 = [] := by
    simp only [diffModifiers]
    rw [List.filter_eq_nil_iff]
    intro k hk
    simp [hextra k hk]
  rw [hgen, h1, h2]
  simp

/-- C6 witness: with left Shift pressed and a Shift-requiring keypress, the
output is exactly the main press/release and the delay. -/
theorem sendKeyPress_entourage_spec_witness :
    (sendKeyPress { baseState with modifiers := [KEY_LEFTSHIFT] }
        { key := 30, modifiers := [Modifier.shift] }).actions
      = [Action.keyEvent 30 PRESS, Action.keyEvent 30 RELEASE,
         Action.delay 0] :=
  (sendKeyPress_entourage_spec
      { baseState with modifiers := [KEY_LEFTSHIFT] }
      { key := 30, modifiers := [Modifier.shift] }).2
    (by decide) (by decide)

/-! C5. -/

/-- A key whose pressed-keys alias is itself (or absent) passes through
`maintain_pressed_keys` with the single entry intact; only `pressedKeys`
changes in the state. -/
theorem maintainPressedKeys_single_self (s : EventHandler) (key : Key)
    (hpk : assocGet s.pressedKeys key = none ∨
           assocGet s.pressedKeys key = some key) :
    maintainPressedKeys s key PRESS [(key, PRESS)]
      = ({ s with pressedKeys := assocInsert s.pressedKeys key key },
         [(key, PRESS)]) ∧
    maintainPressedKeys s key RELEASE [(key, RELEASE)]
      = ({ s with pressedKeys := assocRemove s.pressedKeys key },
         [(key, RELEASE)]) ∧
    maintainPressedKeys s key REPEAT [(key, REPEAT)] = (s, [(key, REPEAT)]) := by
  refine ⟨?_, ?_, ?_⟩ <;>
    rcases hpk with h | h <;>
      norm_num [maintainPressedKeys, PRESS, RELEASE, REPEAT, h]

/-- With an empty override stack `find_keymap` goes straight to the static
table. -/
theorem findKeymap_emptyOverride (s : EventHandler) (cfg : Config) (key : Key)
    (hov : s.overrideRemaps = []) :
    findKeymap s cfg key = (findKeymapStatic s cfg key, s) := by
  unfold findKeymap
  simp [hov]

/-- A key absent from the static keymap table has no static hit. -/
theorem findKeymapStatic_none (s : EventHandler) (cfg : Config) (key : Key)
    (hkt : assocGet cfg.keymapTable key = none) :
    findKeymapStatic s cfg key = none := by
  unfold findKeymapStatic
  rw [hkt]

/-- One pass-through iteration of the `on_key_event` emission loop appends
exactly the original key event. -/
theorem onKeyEventStep_passthrough (cfg : Config) (s1 : EventHandler)
    (now : Nat) (key : Key) (v : Int)
    (hvm : key ∉ cfg.virtualModifiers)
    (hkt : assocGet cfg.keymapTable key = none)
    (hov : s1.overrideRemaps = [])
    (hcode : key < DISGUISED_EVENT_OFFSETTER) :
    (onKeyEventStep cfg key v now s1 false key v).1.actions
      = s1.actions ++ [Action.keyEvent key v] := by
  have hdec : decide (DISGUISED_EVENT_OFFSETTER ≤ key) = false := by
    simpa using Nat.not_le.mpr hcode
  unfold onKeyEventStep
  by_cases hmk : key ∈ MODIFIER_KEYS
  · simp [hvm, hmk, hdec, sendKey_eq, updateModifier_eq]
  · by_cases hip : isPressed v
    · by_cases hesc : s1.escapeNextKey
      · simp [hvm, hmk, hip, hesc, hdec, sendKey_eq]
      · rw [findKeymap_emptyOverride s1 cfg key hov,
            findKeymapStatic_none s1 cfg key hkt]
        simp [hvm, hmk, hip, hesc, hdec, sendKey_eq]
    · simp [hvm, hmk, hip, hdec, sendKey_eq]

/-- C5: a pass-through key — no modmap entry, no keymap-table entry, not a
virtual modifier, below the disguised-scancode range, with no pending
multi-purpose state, an empty override stack, and a self- (or un-)aliased
pressed-keys entry — emits exactly the single action KeyEvent(k, v). -/
theorem passthrough_key_emission (cfg : Config) (s : EventHandler) (now : Nat)
    (key : Key) (v : Int)
    (hmod : findModmap s cfg key = none)
    (hkt : assocGet cfg.keymapTable key = none)
    (hvm : key ∉ cfg.virtualModifiers)
    (hmp : s.multiPurposeKeys = [])
    (hov : s.overrideRemaps = [])
    (hcode : key < DISGUISED_EVENT_OFFSETTER)
    (hpk : assocGet s.pressedKeys key = none ∨
           assocGet s.pressedKeys key = some key)
    (hv : v = RELEASE ∨ v = PRESS ∨ v = REPEAT) :
    (onKeyEvent s cfg now key v).1.actions
      = s.actions ++ [Action.keyEvent key v] := by
  unfold onKeyEvent
  rcases hv with hv | hv | hv <;> subst hv
  · have hstep := onKeyEventStep_passthrough cfg
      { s with pressedKeys := assocRemove s.pressedKeys key } now key RELEASE
      hvm hkt hov hcode
    rw [hmp] at hstep
    simp only [modmapStage, hmod, flushStage,
      (maintainPressedKeys_single_self s key hpk).2.1]
    simp [hmp, hstep]
  · have hstep := onKeyEventStep_passthrough cfg
      { s with pressedKeys := assocInsert s.pressedKeys key key } now key PRESS
      hvm hkt hov hcode
    rw [hmp] at hstep
    simp only [modmapStage, hmod, flushStage,
      (maintainPressedKeys_single_self s key hpk).1]
    simp [hmp, hstep]
  · have hstep := onKeyEventStep_passthrough cfg s now key REPEAT
      hvm hkt hov hcode
    simp only [modmapStage, hmod, flushStage,
      (maintainPressedKeys_single_self s key hpk).2.2]
    simp [hmp, hstep]

/-! C4. -/

/-- The implicit press+release `timeout_override` emits for a pending
timeout key. -/
def timeoutActions : Option Key → List Action
  | some k => [Action.keyEvent k PRESS, Action.keyEvent k RELEASE]
  | none => []

/-- Unfolding lemma for `timeoutOverride` as a record update. -/
theorem timeoutOverride_eq (s : EventHandler) :
    timeoutOverride s
      = { s with overrideTimerArmed := false, overrideRemaps := [],
                 overrideTimeoutKey := none,
                 actions := s.actions ++ timeoutActions s.overrideTimeoutKey } := by
  unfold timeoutOverride removeOverride
  cases h : s.overrideTimeoutKey <;> simp [h, sendKey_eq, timeoutActions]

/-- The application matcher reads only the memoized probe. -/
theorem matchApplication_congr (s s' : EventHandler)
    (h : s'.appProbe = s.appProbe) :
    ∀ m : Application, matchApplication s' m = matchApplication s m := by
  intro m
  unfold matchApplication
  rw [h]

/-- Static keymap resolution depends only on the pressed modifiers, the
application probe and the mode. -/
theorem resolveStaticLoop_congr (s s' : EventHandler)
    (h1 : s'.modifiers = s.modifiers) (h2 : s'.appProbe = s.appProbe)
    (h3 : s'.mode = s.mode) :
    ∀ (exact : Bool) (remaps : List TaggedAction)
      (entries : List OverrideEntry),
      resolveStaticLoop s' exact remaps entries
        = resolveStaticLoop s exact remaps entries := by
  intro exact remaps entries
  induction entries generalizing remaps with
  | nil => rfl
  | cons e rest ih =>
      simp only [resolveStaticLoop, h1, h3, matchApplication_congr s s' h2, ih]

/-- Static keymap lookup depends only on the pressed modifiers, the
application probe and the mode. -/
theorem findKeymapStatic_congr (s s' : EventHandler) (cfg : Config) (key : Key)
    (h1 : s'.modifiers = s.modifiers) (h2 : s'.appProbe = s.appProbe)
    (h3 : s'.mode = s.mode) :
    findKeymapStatic s' cfg key = findKeymapStatic s cfg key := by
  unfold findKeymapStatic
  cases h : assocGet cfg.keymapTable key with
  | none => rfl
  | some entries => simp only [resolveStaticLoop_congr s s' h1 h2 h3]

/-- C4: when the override stack is non-empty and no override entry matches
the pressed key (both resolution passes fail over the flattened entries),
`find_keymap` invokes `timeout_override` — the key pending at that moment
(the original pending key when the stack held no entries for the pressed
key; already cleared by `remove_override` otherwise) is emitted as press then
release — the override stack, timeout key and timer are cleared, and
resolution falls through to the static keymap table. -/
theorem findKeymap_override_fallthrough (cfg : Config) (s : EventHandler)
    (key : Key)
    (hne : s.overrideRemaps ≠ [])
    (hnm1 : resolveOverrideLoop s.modifiers true [] (overrideEntries s key)
        = none)
    (hnm2 : resolveOverrideLoop s.modifiers false [] (overrideEntries s key)
        = none) :
    (findKeymap s cfg key).1 = findKeymapStatic s cfg key ∧
    (findKeymap s cfg key).2.overrideRemaps = [] ∧
    (findKeymap s cfg key).2.overrideTimeoutKey = none ∧
    (findKeymap s cfg key).2.overrideTimerArmed = false ∧
    (findKeymap s cfg key).2.actions
      = s.actions ++ (if (overrideEntries s key).isEmpty
          then timeoutActions s.overrideTimeoutKey else []) := by
  have hiso : s.overrideRemaps.isEmpty = false := by
    cases hh : s.overrideRemaps
    · exact absurd hh hne
    · rfl
  by_cases hent : (overrideEntries s key).isEmpty
  · have hres : findKeymap s cfg key
        = (findKeymapStatic (timeoutOverride s) cfg key, timeoutOverride s) := by
      unfold findKeymap
      simp [hiso, hent]
    rw [hres, timeoutOverride_eq]
    refine ⟨findKeymapStatic_congr s _ cfg key rfl rfl rfl, rfl, rfl, rfl, ?_⟩
    simp [hent]
  · have hres : findKeymap s cfg key
        = (findKeymapStatic (timeoutOverride (removeOverride s)) cfg key,
           timeoutOverride (removeOverride s)) := by
      unfold findKeymap
      simp [hiso, hent, removeOverride, hnm1, hnm2]
    have hto : timeoutOverride (removeOverride s)
        = { s with overrideTimerArmed := false, overrideRemaps := [],
                   overrideTimeoutKey := none } := by
      rw [timeoutOverride_eq]
      simp [removeOverride, timeoutActions]
    rw [hres, hto]
    refine ⟨findKeymapStatic_congr s _ cfg key rfl rfl rfl, rfl, rfl, rfl, ?_⟩
    simp [hent]

/-- A handler state with a pending override (empty table) and timeout key
57, for the C4 witness. -/
def c4State : EventHandler :=
  { baseState with overrideRemaps := [[]], overrideTimeoutKey := some 57,
                   overrideTimerArmed := true }

/-- The config for the C4 witness. -/
def c4Cfg : Config :=
  { modmap := [], keymapTable := [], virtualModifiers := [] }

/-- C4 witness: the full conclusion at a concrete pending-override state —
the pending key 57 is flushed as press+release and the override state is
cleared. -/
theorem findKeymap_override_fallthrough_witness :
    (findKeymap c4State c4Cfg 30).1 = findKeymapStatic c4State c4Cfg 30 ∧
    (findKeymap c4State c4Cfg 30).2.overrideRemaps = [] ∧
    (findKeymap c4State c4Cfg 30).2.overrideTimeoutKey = none ∧
    (findKeymap c4State c4Cfg 30).2.overrideTimerArmed = false ∧
    (findKeymap c4State c4Cfg 30).2.actions
      = c4State.actions ++ (if (overrideEntries c4State 30).isEmpty
          then timeoutActions c4State.overrideTimeoutKey else []) :=
  findKeymap_override_fallthrough c4Cfg c4State 30 (by simp [c4State, baseState])
    rfl rfl

/-- C5 witness: a fresh handler passes key 30's press straight through. -/
theorem passthrough_key_emission_witness :
    (onKeyEvent baseState
        { modmap := [], keymapTable := [], virtualModifiers := [] }
        0 30 PRESS).1.actions
      = [Action.keyEvent 30 PRESS] :=
  passthrough_key_emission
    { modmap := [], keymapTable := [], virtualModifiers := [] }
    baseState 0 30 PRESS rfl rfl (by decide) rfl rfl (by decide)
    (Or.inl rfl) (Or.inr (Or.inl rfl))

/-! Modifier-set preservation lemmas for C7. -/

/-- Membership after `HashSet` insertion. -/
theorem mem_insertKey {l : List Key} {k k' : Key}
    (h : k' ∈ insertKey l k) : k' ∈ l ∨ k' = k := by
  unfold insertKey at h
  split_ifs at h with hc
  · exact Or.inl h
  · rcases List.mem_append.mp h with h | h
    · exact Or.inl h
    · exact Or.inr (List.mem_singleton.mp h)

/-- Membership after `HashSet` removal. -/
theorem mem_removeKey {l : List Key} {k k' : Key}
    (h : k' ∈ removeKey l k) : k' ∈ l :=
  List.mem_of_mem_filter h

/-- Membership in the modifier set after `update_modifier`. -/
theorem mem_updateModifier {s : EventHandler} {k k' : Key} {v : Int}
    (h : k' ∈ (updateModifier s k v).modifiers) :
    k' ∈ s.modifiers ∨ k' = k := by
  rw [updateModifier_eq] at h
  simp only at h
  split_ifs at h
  · exact mem_insertKey h
  · exact Or.inl (mem_removeKey h)
  · exact Or.inl h

/-- `send_key_press` leaves the modifier set unchanged. -/
theorem sendKeyPress_modifiers (s : EventHandler) (kp : KeyPress) :
    (sendKeyPress s kp).modifiers = s.modifiers := by
  simp [sendKeyPress, sendKeys_eq, sendKey_eq, sendAction_eq]

/-- `dispatch_action` leaves the modifier set unchanged. -/
theorem dispatchAction_modifiers (s : EventHandler) (a : TaggedAction)
    (key : Key) : (dispatchAction s a key).modifiers = s.modifiers := by
  rcases a with ⟨act, em⟩
  cases act with
  | keyPress kp => simpa [dispatchAction] using sendKeyPress_modifiers s kp
  | remap r =>
      cases r with
      | mk table timeout timeoutKey =>
          simp only [dispatchAction]
          cases timeout <;> split_ifs <;> rfl
  | launch c => rfl
  | setMode m => rfl
  | setMark b => rfl
  | withMark kp =>
      simpa [dispatchAction] using sendKeyPress_modifiers s (withMark s kp)
  | escapeNextKey b => rfl
  | setExtraModifiers ks => rfl

/-- `dispatch_actions` leaves the modifier set unchanged. -/
theorem dispatchActions_modifiers (s : EventHandler)
    (actions : List TaggedAction) (key : Key) :
    (dispatchActions s actions key).modifiers = s.modifiers := by
  induction actions generalizing s with
  | nil => rfl
  | cons a rest ih =>
      have h1 : dispatchActions s (a :: rest) key
          = dispatchActions (dispatchAction s a key) rest key := rfl
      rw [h1, ih, dispatchAction_modifiers]

/-- `find_keymap` leaves the modifier set unchanged. -/
theorem findKeymap_modifiers (s : EventHandler) (cfg : Config) (key : Key) :
    (findKeymap s cfg key).2.modifiers = s.modifiers := by
  unfold findKeymap
  by_cases h1 : s.overrideRemaps.isEmpty
  · simp [h1]
  · by_cases h2 : (overrideEntries s key).isEmpty
    · simp [h1, h2, timeoutOverride_eq]
    · simp only [h1, h2, removeOverride, Bool.not_false, Bool.not_true,
        Bool.false_eq_true, Bool.not_eq_true, if_false, if_true]
      cases hr1 : resolveOverrideLoop s.modifiers true []
          (overrideEntries s key) with
      | some a => simp [hr1]
      | none =>
          cases hr2 : resolveOverrideLoop s.modifiers false []
              (overrideEntries s key) with
          | some a => simp [hr1, hr2]
          | none => simp [hr1, hr2, timeoutOverride_eq]

/-- `dispatch_keys` leaves the modifier set unchanged. -/
theorem dispatchKeys_modifiers (s : EventHandler) (keyAction : ModmapAction)
    (key : Key) (value : Int) (now : Nat) :
    (dispatchKeys s keyAction key value now).1.modifiers = s.modifiers := by
  cases keyAction with
  | key k => rfl
  | multiPurposeKey held alone aloneTimeout =>
      simp only [dispatchKeys]
      split_ifs with h1 h2 h3
      · rfl
      · cases hg : assocGet s.multiPurposeKeys key with
        | none => simp [hg]
        | some st =>
            cases hrep : st.repeat now with
            | mk st2 out => simp [hg, hrep]
      · cases hg : assocGet s.multiPurposeKeys key <;> simp [hg]
      · rfl
  | pressReleaseKey press release =>
      simp only [dispatchKeys]
      split_ifs <;> simp [dispatchActions_modifiers]

/-- `maintain_pressed_keys` leaves the modifier set unchanged. -/
theorem maintainPressedKeys_modifiers (s : EventHandler) (key : Key)
    (value : Int) (events : List (Key × Int)) :
    (maintainPressedKeys s key value events).1.modifiers = s.modifiers := by
  unfold maintainPressedKeys
  rcases events with _ | ⟨⟨k0, v0⟩, _ | ⟨b, rest⟩⟩
  · rfl
  · dsimp only
    split_ifs <;> rfl
  · rfl

/-- `flush_timeout_keys` leaves the modifier set unchanged. -/
theorem flushTimeoutKeys_modifiers (s : EventHandler)
    (keyValues : List (Key × Int)) :
    (flushTimeoutKeys s keyValues).1.modifiers = s.modifiers := by
  unfold flushTimeoutKeys
  split_ifs <;> rfl

/-- One emission-loop iteration either leaves the modifier set unchanged or
applies `update_modifier` for a key that is a physical modifier key or a
configured virtual modifier. -/
theorem onKeyEventStep_modifiers (cfg : Config) (origCode : Nat)
    (origValue : Int) (now : Nat) (s : EventHandler) (flag : Bool)
    (key : Key) (value : Int) :
    (onKeyEventStep cfg origCode origValue now s flag key value).1.modifiers
        = s.modifiers ∨
    ((key ∈ MODIFIER_KEYS ∨ key ∈ cfg.virtualModifiers) ∧
      (onKeyEventStep cfg origCode origValue now s flag key value).1.modifiers
        = (updateModifier s key value).modifiers) := by
  unfold onKeyEventStep
  rcases hfk : findKeymap s cfg key with ⟨res, s1⟩
  have hs1 : s1.modifiers = s.modifiers := by
    have h := findKeymap_modifiers s cfg key
    rw [hfk] at h
    exact h
  simp only [hfk]
  cases res <;>
    split_ifs <;>
      first
        | (left; simp_all [sendKey_eq, dispatchActions_modifiers]; done)
        | (right;
           exact ⟨by simp_all, by simp_all [sendKey_eq, updateModifier_eq]⟩)

/-- The whole emission loop of `on_key_event` adds only physical-modifier or
virtual-modifier keys to the modifier set. -/
theorem onKeyEventLoop_modifiers_subset (cfg : Config) (origCode : Nat)
    (origValue : Int) (now : Nat) :
    ∀ (kvs : List (Key × Int)) (sb : EventHandler × Bool) (k : Key),
      k ∈ (kvs.foldl
            (fun sb kv =>
              onKeyEventStep cfg origCode origValue now sb.1 sb.2 kv.1 kv.2)
            sb).1.modifiers →
      k ∈ sb.1.modifiers ∨ k ∈ MODIFIER_KEYS ∨ k ∈ cfg.virtualModifiers := by
  intro kvs
  induction kvs with
  | nil => exact fun sb k h => Or.inl h
  | cons kv rest ih =>
      intro sb k h
      have h1 : (List.foldl
            (fun sb kv =>
              onKeyEventStep cfg origCode origValue now sb.1 sb.2 kv.1 kv.2)
            sb (kv :: rest))
          = (List.foldl
            (fun sb kv =>
              onKeyEventStep cfg origCode origValue now sb.1 sb.2 kv.1 kv.2)
            (onKeyEventStep cfg origCode origValue now sb.1 sb.2 kv.1 kv.2)
            rest) := rfl
      rw [h1] at h
      rcases ih _ k h with h2 | h2
      · rcases onKeyEventStep_modifiers cfg origCode origValue now sb.1 sb.2
            kv.1 kv.2 with he | ⟨hg, he⟩
        · rw [he] at h2
          exact Or.inl h2
        · rw [he] at h2
          rcases mem_updateModifier h2 with h3 | h3
          · exact Or.inl h3
          · subst h3
            exact Or.inr hg
      · exact Or.inr h2

/-- The modmap stage leaves the modifier set unchanged. -/
theorem modmapStage_modifiers (s : EventHandler) (cfg : Config) (key : Key)
    (value : Int) (now : Nat) :
    (modmapStage s cfg key value now).1.modifiers = s.modifiers := by
  unfold modmapStage
  cases hfm : findModmap s cfg key with
  | none => rfl
  | some keyAction => simp [dispatchKeys_modifiers]

/-- The flush stage leaves the modifier set unchanged. -/
theorem flushStage_modifiers (p : EventHandler × List (Key × Int)) :
    (flushStage p).1.modifiers = p.1.modifiers := by
  unfold flushStage
  split_ifs <;> simp [flushTimeoutKeys_modifiers]

/-- `on_key_event` adds only physical-modifier or virtual-modifier keys to
the modifier set. -/
theorem onKeyEvent_modifiers_subset (cfg : Config) (s : EventHandler)
    (now : Nat) (code : Nat) (value : Int) (k : Key)
    (h : k ∈ (onKeyEvent s cfg now code value).1.modifiers) :
    k ∈ s.modifiers ∨ k ∈ MODIFIER_KEYS ∨ k ∈ cfg.virtualModifiers := by
  unfold onKeyEvent at h
  rcases onKeyEventLoop_modifiers_subset cfg code value now _ _ k h with h2 | h2
  · left
    rwa [flushStage_modifiers, maintainPressedKeys_modifiers,
      modmapStage_modifiers] at h2
  · right
    exact h2

/-- `on_relative_event` adds only physical-modifier or virtual-modifier keys
to the modifier set. -/
theorem onRelativeEvent_modifiers_subset (cfg : Config) (s : EventHandler)
    (coll : List (Nat × Int)) (now : Nat) (code : Nat) (value : Int) (k : Key)
    (h : k ∈ (onRelativeEvent s coll cfg now code value).1.modifiers) :
    k ∈ s.modifiers ∨ k ∈ MODIFIER_KEYS ∨ k ∈ cfg.virtualModifiers := by
  unfold onRelativeEvent at h
  rcases onKeyEvent_modifiers_subset cfg _ now _ RELEASE k h with h2 | h2
  · have h3 :
        (if (onKeyEvent s cfg now (disguise code value) PRESS).2 = true then
          if code ≤ 2 then
            ((onKeyEvent s cfg now (disguise code value) PRESS).1,
             coll ++ [(code, value)])
          else
            (sendAction (onKeyEvent s cfg now (disguise code value) PRESS).1
              (Action.relativeEvent code value), coll)
        else ((onKeyEvent s cfg now (disguise code value) PRESS).1,
              coll)).1.modifiers
          = (onKeyEvent s cfg now (disguise code value) PRESS).1.modifiers := by
      split_ifs <;> rfl
    rw [h3] at h2
    exact onKeyEvent_modifiers_subset cfg s now _ PRESS k h2
  · right
    exact h2

/-- One `on_events` iteration adds only physical-modifier or
virtual-modifier keys to the modifier set. -/
theorem onEventsStep_modifiers_subset (cfg : Config) (now : Nat)
    (acc : EventHandler × List (Nat × Int)) (event : Event) (k : Key)
    (h : k ∈ (onEventsStep cfg now acc event).1.modifiers) :
    k ∈ acc.1.modifiers ∨ k ∈ MODIFIER_KEYS ∨ k ∈ cfg.virtualModifiers := by
  cases event with
  | keyEvent code v =>
      exact onKeyEvent_modifiers_subset cfg acc.1 now code v.value k h
  | relativeEvent code value =>
      exact onRelativeEvent_modifiers_subset cfg acc.1 acc.2 now code value k h
  | otherEvents raw => exact Or.inl h
  | overrideTimeout =>
      left
      unfold onEventsStep at h
      rw [timeoutOverride_eq] at h
      exact h

/-- C7: after `on_events` handles any batch, the modifier set still contains
only physical modifier keys and configured virtual modifiers, provided it
did before. -/
theorem modifiers_subset_invariant (cfg : Config) (s : EventHandler)
    (now : Nat) (events : List Event)
    (hsub : ∀ k ∈ s.modifiers, k ∈ MODIFIER_KEYS ∨ k ∈ cfg.virtualModifiers) :
    ∀ k ∈ (onEvents s cfg now events).1.modifiers,
      k ∈ MODIFIER_KEYS ∨ k ∈ cfg.virtualModifiers := by
  intro k hk
  unfold onEvents at hk
  have hfold :
      ∀ (evs : List Event) (acc : EventHandler × List (Nat × Int)),
        k ∈ (evs.foldl (onEventsStep cfg now) acc).1.modifiers →
        k ∈ acc.1.modifiers ∨ k ∈ MODIFIER_KEYS ∨ k ∈ cfg.virtualModifiers := by
    intro evs
    induction evs with
    | nil => exact fun acc h => Or.inl h
    | cons e rest ih =>
        intro acc h
        rcases ih (onEventsStep cfg now acc e) h with h2 | h2
        · exact onEventsStep_modifiers_subset cfg now acc e k h2
        · exact Or.inr h2
  have hk2 : k ∈ (events.foldl (onEventsStep cfg now) (s, [])).1.modifiers := by
    by_cases hc :
        (events.foldl (onEventsStep cfg now) (s, [])).2.length > 0 <;>
      simp [hc, sendAction_eq] at hk <;> exact hk
  rcases hfold events (s, []) hk2 with h2 | h2
  · exact hsub k h2
  · exact h2

/-- C7 witness: a physical Control press on a fresh handler leaves the
modifier set inside MODIFIER_KEYS ∪ virtual_modifiers (key 29 lands in
MODIFIER_KEYS). -/
theorem modifiers_subset_invariant_witness :
    29 ∈ MODIFIER_KEYS ∨
      29 ∈ ({ modmap := [], keymapTable := [],
              virtualModifiers := [] : Config }).virtualModifiers :=
  modifiers_subset_invariant
    { modmap := [], keymapTable := [], virtualModifiers := [] }
    baseState 0 [Event.keyEvent 29 KeyValue.press]
    (by intro k hk; simp [baseState] at hk) 29 (by decide)

/-! Action-shape tracking lemmas for C8. -/

/-- Is the action a coalesced mouse-motion collection? -/
def isMouseColl : Action → Bool
  | Action.mouseMovementEventCollection _ => true
  | _ => false

/-- Is the action an individual relative event on a pointer axis
(code ≤ 2)? -/
def isAxisRel : Action → Bool
  | Action.relativeEvent c _ => decide (c ≤ 2)
  | _ => false

/-- Actions the per-event handlers may emit: never a mouse collection and
never an individual pointer-axis relative event. -/
def goodAction (a : Action) : Prop :=
  isMouseColl a = false ∧ isAxisRel a = false

/-- Key events are good. -/
theorem goodAction_keyEvent (k : Key) (v : Int) :
    goodAction (Action.keyEvent k v) := ⟨rfl, rfl⟩

/-- Delays are good. -/
theorem goodAction_delay (d : Nat) : goodAction (Action.delay d) := ⟨rfl, rfl⟩

/-- Commands are good. -/
theorem goodAction_command (c : List String) :
    goodAction (Action.command c) := ⟨rfl, rfl⟩

/-- Passthrough input events are good. -/
theorem goodAction_inputEvent (r : Nat) :
    goodAction (Action.inputEvent r) := ⟨rfl, rfl⟩

/-- Relative events above the pointer axes are good. -/
theorem goodAction_relativeEvent (c : Nat) (v : Int) (h : ¬ c ≤ 2) :
    goodAction (Action.relativeEvent c v) := by
  refine ⟨rfl, ?_⟩
  simpa [isAxisRel] using h

/-- Generic fold lemma: if every step only appends good actions, so does the
whole fold. -/
theorem foldl_actions_good {β σ : Type} (proj : σ → EventHandler)
    (f : σ → β → σ)
    (hf : ∀ s b, ∀ a ∈ (proj (f s b)).actions,
      a ∈ (proj s).actions ∨ goodAction a) :
    ∀ (l : List β) (s : σ), ∀ a ∈ (proj (l.foldl f s)).actions,
      a ∈ (proj s).actions ∨ goodAction a := by
  intro l
  induction l with
  | nil => exact fun s a ha => Or.inl ha
  | cons b rest ih =>
      intro s a ha
      rcases ih (f s b) a ha with h | h
      · exact hf s b a h
      · exact Or.inr h

/-- `send_key_press` appends only good actions. -/
theorem sendKeyPress_actions_good (s : EventHandler) (kp : KeyPress) :
    ∀ a ∈ (sendKeyPress s kp).actions, a ∈ s.actions ∨ goodAction a := by
  intro a ha
  rw [sendKeyPress_actions_eq] at ha
  simp only [List.mem_append] at ha
  rcases ha with ((((ha | ha) | ha) | ha) | ha) | ha
  · exact Or.inl ha
  all_goals right
  all_goals
    first
      | (rcases List.mem_map.mp ha with ⟨x, hx, rfl⟩
         exact goodAction_keyEvent _ _)
      | (simp only [List.mem_cons, List.not_mem_nil, or_false] at ha
         rcases ha with rfl | rfl | rfl
         · exact goodAction_keyEvent _ _
         · exact goodAction_keyEvent _ _
         · exact goodAction_delay _)

/-- `timeout_override` appends only good actions. -/
theorem timeoutOverride_actions_good (s : EventHandler) :
    ∀ a ∈ (timeoutOverride s).actions, a ∈ s.actions ∨ goodAction a := by
  intro a ha
  rw [timeoutOverride_eq] at ha
  simp only [List.mem_append] at ha
  rcases ha with ha | ha
  · exact Or.inl ha
  · right
    rcases hk : s.overrideTimeoutKey with _ | k
    · rw [hk] at ha
      simp [timeoutActions] at ha
    · rw [hk] at ha
      simp only [timeoutActions, List.mem_cons, List.not_mem_nil,
        or_false] at ha
      rcases ha with rfl | rfl <;> exact goodAction_keyEvent _ _

/-- `dispatch_action` appends only good actions. -/
theorem dispatchAction_actions_good (s : EventHandler) (ta : TaggedAction)
    (key : Key) :
    ∀ a ∈ (dispatchAction s ta key).actions, a ∈ s.actions ∨ goodAction a := by
  intro a ha
  rcases ta with ⟨act, em⟩
  cases act with
  | keyPress kp => exact sendKeyPress_actions_good s kp a ha
  | withMark kp => exact sendKeyPress_actions_good s (withMark s kp) a ha
  | remap r =>
      cases r with
      | mk table timeout timeoutKey =>
          left
          simp only [dispatchAction] at ha
          cases timeout <;> split_ifs at ha <;> exact ha
  | launch c =>
      simp only [dispatchAction, runCommand, sendAction_eq,
        List.mem_append, List.mem_singleton] at ha
      rcases ha with ha | rfl
      · exact Or.inl ha
      · exact Or.inr (goodAction_command _)
  | setMode m => exact Or.inl ha
  | setMark b => exact Or.inl ha
  | escapeNextKey b => exact Or.inl ha
  | setExtraModifiers ks => exact Or.inl ha

/-- `dispatch_actions` appends only good actions. -/
theorem dispatchActions_actions_good (s : EventHandler)
    (actions : List TaggedAction) (key : Key) :
    ∀ a ∈ (dispatchActions s actions key).actions,
      a ∈ s.actions ∨ goodAction a :=
  foldl_actions_good (fun s => s) (fun s ta => dispatchAction s ta key)
    (fun s ta => dispatchAction_actions_good s ta key) actions s

/-- `find_keymap` appends only good actions. -/
theorem findKeymap_actions_good (s : EventHandler) (cfg : Config) (key : Key) :
    ∀ a ∈ (findKeymap s cfg key).2.actions, a ∈ s.actions ∨ goodAction a := by
  intro a ha
  unfold findKeymap at ha
  by_cases h1 : s.overrideRemaps.isEmpty
  · simp [h1] at ha
    exact Or.inl ha
  · by_cases h2 : (overrideEntries s key).isEmpty
    · simp only [h1, h2, Bool.not_true, Bool.not_false, Bool.false_eq_true,
        if_false, if_true, Bool.not_eq_true, List.isEmpty_eq_true] at ha
      exact timeoutOverride_actions_good s a (by simpa using ha)
    · simp only [h1, h2, removeOverride, Bool.not_true, Bool.not_false,
        Bool.false_eq_true, if_false, if_true] at ha
      cases hr1 : resolveOverrideLoop s.modifiers true []
          (overrideEntries s key) with
      | some al => simp [hr1] at ha; exact Or.inl ha
      | none =>
          cases hr2 : resolveOverrideLoop s.modifiers false []
              (overrideEntries s key) with
          | some al => simp [hr1, hr2] at ha; exact Or.inl ha
          | none =>
              simp only [hr1, hr2] at ha
              rw [timeoutOverride_eq] at ha
              simp only [timeoutActions, List.append_nil] at ha
              exact Or.inl ha

/-- `dispatch_keys` appends only good actions. -/
theorem dispatchKeys_actions_good (s : EventHandler)
    (keyAction : ModmapAction) (key : Key) (value : Int) (now : Nat) :
    ∀ a ∈ (dispatchKeys s keyAction key value now).1.actions,
      a ∈ s.actions ∨ goodAction a := by
  intro a ha
  cases keyAction with
  | key k => exact Or.inl ha
  | multiPurposeKey held alone aloneTimeout =>
      left
      simp only [dispatchKeys] at ha
      split_ifs at ha
      · exact ha
      · cases hg : assocGet s.multiPurposeKeys key <;> rw [hg] at ha <;>
          dsimp only at ha <;> exact ha
      · cases hg : assocGet s.multiPurposeKeys key <;> rw [hg] at ha <;>
          dsimp only at ha <;> exact ha
      · exact ha
  | pressReleaseKey press release =>
      simp only [dispatchKeys] at ha
      split_ifs at ha
      · exact dispatchActions_actions_good s _ key a ha
      · exact dispatchActions_actions_good s _ key a ha
      · exact Or.inl ha

/-- The modmap stage appends only good actions. -/
theorem modmapStage_actions_good (s : EventHandler) (cfg : Config)
    (key : Key) (value : Int) (now : Nat) :
    ∀ a ∈ (modmapStage s cfg key value now).1.actions,
      a ∈ s.actions ∨ goodAction a := by
  intro a ha
  unfold modmapStage at ha
  cases hfm : findModmap s cfg key <;> rw [hfm] at ha
  · exact Or.inl ha
  · exact dispatchKeys_actions_good s _ key value now a ha

/-- `maintain_pressed_keys` leaves the action buffer unchanged. -/
theorem maintainPressedKeys_actions (s : EventHandler) (key : Key)
    (value : Int) (events : List (Key × Int)) :
    (maintainPressedKeys s key value events).1.actions = s.actions := by
  unfold maintainPressedKeys
  rcases events with _ | ⟨⟨k0, v0⟩, _ | ⟨b, rest⟩⟩
  · rfl
  · dsimp only
    split_ifs <;> rfl
  · rfl

/-- `flush_timeout_keys` leaves the action buffer unchanged. -/
theorem flushStage_actions (p : EventHandler × List (Key × Int)) :
    (flushStage p).1.actions = p.1.actions := by
  unfold flushStage flushTimeoutKeys
  split_ifs <;> rfl

/-- One emission-loop iteration appends only good actions. -/
theorem onKeyEventStep_actions_good (cfg : Config) (origCode : Nat)
    (origValue : Int) (now : Nat) (s : EventHandler) (flag : Bool)
    (key : Key) (value : Int) :
    ∀ a ∈ (onKeyEventStep cfg origCode origValue now s flag key value).1.actions,
      a ∈ s.actions ∨ goodAction a := by
  intro a ha
  unfold onKeyEventStep at ha
  by_cases hv : cfg.virtualModifiers.contains key
  · simp only [hv, updateModifier_eq, if_true] at ha
    exact Or.inl ha
  · by_cases hmk : MODIFIER_KEYS.contains key
    · simp only [hv, hmk, updateModifier_eq, Bool.false_eq_true, if_false,
        if_true] at ha
      split_ifs at ha <;>
        (try simp only [sendKey_eq, List.mem_append,
          List.mem_singleton] at ha) <;>
        first
          | exact Or.inl ha
          | (rcases ha with ha | rfl
             · exact Or.inl ha
             · exact Or.inr (goodAction_keyEvent _ _))
    · by_cases hip : isPressed value
      · by_cases hesc : s.escapeNextKey
        · simp only [hv, hmk, hip, hesc, Bool.false_eq_true, if_false,
            if_true] at ha
          split_ifs at ha <;>
            (try simp only [sendKey_eq, List.mem_append,
              List.mem_singleton] at ha) <;>
            first
              | exact Or.inl ha
              | (rcases ha with ha | rfl
                 · exact Or.inl ha
                 · exact Or.inr (goodAction_keyEvent _ _))
        · rcases hfk : findKeymap s cfg key with ⟨res, s1⟩
          have hgk : ∀ b ∈ s1.actions, b ∈ s.actions ∨ goodAction b := by
            intro b hb
            have h := findKeymap_actions_good s cfg key b
            rw [hfk] at h
            exact h hb
          cases res with
          | some al =>
              simp only [hv, hmk, hip, hesc, hfk, Bool.false_eq_true,
                if_false, if_true] at ha
              rcases dispatchActions_actions_good s1 al key a ha with h | h
              · exact hgk a h
              · exact Or.inr h
          | none =>
              simp only [hv, hmk, hip, hesc, hfk, Bool.false_eq_true,
                if_false, if_true] at ha
              split_ifs at ha <;>
                (try simp only [sendKey_eq, List.mem_append,
                  List.mem_singleton] at ha) <;>
                first
                  | exact hgk a ha
                  | (rcases ha with ha | rfl
                     · exact hgk a ha
                     · exact Or.inr (goodAction_keyEvent _ _))
      · simp only [hv, hmk, hip, Bool.false_eq_true, if_false] at ha
        split_ifs at ha <;>
          (try simp only [sendKey_eq, List.mem_append,
            List.mem_singleton] at ha) <;>
          first
            | exact Or.inl ha
            | (rcases ha with ha | rfl
               · exact Or.inl ha
               · exact Or.inr (goodAction_keyEvent _ _))

/-- `on_key_event` appends only good actions. -/
theorem onKeyEvent_actions_good (cfg : Config) (s : EventHandler) (now : Nat)
    (code : Nat) (value : Int) :
    ∀ a ∈ (onKeyEvent s cfg now code value).1.actions,
      a ∈ s.actions ∨ goodAction a := by
  intro a ha
  unfold onKeyEvent at ha
  have hloop := foldl_actions_good (fun sb : EventHandler × Bool => sb.1)
    (fun sb (kv : Key × Int) =>
      onKeyEventStep cfg code value now sb.1 sb.2 kv.1 kv.2)
    (fun sb (kv : Key × Int) =>
      onKeyEventStep_actions_good cfg code value now sb.1 sb.2 kv.1 kv.2)
    _ _ a ha
  rcases hloop with h | h
  · rw [flushStage_actions, maintainPressedKeys_actions] at h
    exact modmapStage_actions_good s cfg code value now a h
  · exact Or.inr h

/-- `on_relative_event` appends only good actions. -/
theorem onRelativeEvent_actions_good (cfg : Config) (s : EventHandler)
    (coll : List (Nat × Int)) (now : Nat) (code : Nat) (value : Int) :
    ∀ a ∈ (onRelativeEvent s coll cfg now code value).1.actions,
      a ∈ s.actions ∨ goodAction a := by
  intro a ha
  unfold onRelativeEvent at ha
  rcases onKeyEvent_actions_good cfg _ now _ RELEASE a ha with h | h
  · by_cases hso : (onKeyEvent s cfg now (disguise code value) PRESS).2 = true
    · by_cases hc : code ≤ 2
      · simp only [hso, hc, if_true] at h
        exact onKeyEvent_actions_good cfg s now _ PRESS a h
      · simp only [hso, hc, if_true, if_false, sendAction_eq,
          List.mem_append, List.mem_singleton] at h
        rcases h with h | rfl
        · exact onKeyEvent_actions_good cfg s now _ PRESS a h
        · exact Or.inr (goodAction_relativeEvent code value hc)
    · simp only [hso, if_false, Bool.false_eq_true] at h
      exact onKeyEvent_actions_good cfg s now _ PRESS a h
  · exact Or.inr h

/-- One `on_events` iteration appends only good actions. -/
theorem onEventsStep_actions_good (cfg : Config) (now : Nat)
    (acc : EventHandler × List (Nat × Int)) (event : Event) :
    ∀ a ∈ (onEventsStep cfg now acc event).1.actions,
      a ∈ acc.1.actions ∨ goodAction a := by
  intro a ha
  cases event with
  | keyEvent code v =>
      exact onKeyEvent_actions_good cfg acc.1 now code v.value a ha
  | relativeEvent code value =>
      exact onRelativeEvent_actions_good cfg acc.1 acc.2 now code value a ha
  | otherEvents raw =>
      simp only [onEventsStep, sendAction_eq, List.mem_append,
        List.mem_singleton] at ha
      rcases ha with ha | rfl
      · exact Or.inl ha
      · exact Or.inr (goodAction_inputEvent _)
  | overrideTimeout =>
      unfold onEventsStep at ha
      exact timeoutOverride_actions_good acc.1 a ha

/-! C8. -/

/-- C8: a batch processed by `on_events` yields at most one
MouseMovementEventCollection action; when present it is the final element of
the returned list; and no pointer-axis relative event (code ≤ 2) ever
appears as an individual RelativeEvent action. -/
theorem onEvents_mouse_coalescing (cfg : Config) (s : EventHandler)
    (now : Nat) (events : List Event) (hs : s.actions = []) :
    (((onEvents s cfg now events).2.filter isMouseColl).length ≤ 1) ∧
    (∀ l, Action.mouseMovementEventCollection l ∈ (onEvents s cfg now events).2 →
      (onEvents s cfg now events).2.getLast?
        = some (Action.mouseMovementEventCollection l)) ∧
    (∀ c v, Action.relativeEvent c v ∈ (onEvents s cfg now events).2 →
      2 < c) := by
  have hfoldgood :
      ∀ a ∈ (events.foldl (onEventsStep cfg now) (s, [])).1.actions,
        goodAction a := by
    intro a ha
    rcases foldl_actions_good
        (fun (acc : EventHandler × List (Nat × Int)) => acc.1)
        (onEventsStep cfg now)
        (fun acc e => onEventsStep_actions_good cfg now acc e)
        events (s, []) a ha with h | h
    · rw [show ((s, ([] : List (Nat × Int))).1.actions) = s.actions from rfl,
        hs] at h
      exact absurd h (List.not_mem_nil a)
    · exact h
  unfold onEvents
  by_cases hc : (events.foldl (onEventsStep cfg now) (s, [])).2.length > 0
  · simp only [hc, if_true, sendAction_eq]
    refine ⟨?_, ?_, ?_⟩
    · rw [List.filter_append]
      have hnil : (events.foldl (onEventsStep cfg now) (s, [])).1.actions.filter
          isMouseColl = [] := by
        rw [List.filter_eq_nil_iff]
        intro a ha
        simp [(hfoldgood a ha).1]
      rw [hnil]
      simp [isMouseColl]
    · intro l hl
      rw [List.mem_append] at hl
      rcases hl with hl | hl
      · have hg := (hfoldgood _ hl).1
        simp [isMouseColl] at hg
      · simp only [List.mem_singleton] at hl
        obtain rfl : l = (events.foldl (onEventsStep cfg now) (s, [])).2 := by
          injection hl
        exact List.getLast?_concat _
    · intro c v hcv
      rw [List.mem_append] at hcv
      rcases hcv with h | h
      · have hg := (hfoldgood _ h).2
        simp [isAxisRel] at hg
        omega
      · simp at h
  · simp only [hc, if_false]
    refine ⟨?_, ?_, ?_⟩
    · have hnil : (events.foldl (onEventsStep cfg now) (s, [])).1.actions.filter
          isMouseColl = [] := by
        rw [List.filter_eq_nil_iff]
        intro a ha
        simp [(hfoldgood a ha).1]
      simp [hnil]
    · intro l hl
      have hg := (hfoldgood _ hl).1
      simp [isMouseColl] at hg
    · intro c v h
      have hg := (hfoldgood _ h).2
      simp [isAxisRel] at hg
      omega

/-- C8 witness: the batch [REL_Y by 5, REL_WHEEL by 3] on a fresh handler —
exactly one mouse collection, last, and the re-emitted wheel event has code
8 > 2. -/
theorem onEvents_mouse_coalescing_witness :
    (((onEvents baseState
        { modmap := [], keymapTable := [], virtualModifiers := [] }
        0 [Event.relativeEvent 1 5,
           Event.relativeEvent 8 3]).2.filter isMouseColl).length ≤ 1) ∧
    ((onEvents baseState
        { modmap := [], keymapTable := [], virtualModifiers := [] }
        0 [Event.relativeEvent 1 5, Event.relativeEvent 8 3]).2.getLast?
      = some (Action.mouseMovementEventCollection [(1, 5)])) ∧
    (2 < 8) :=
  ⟨(onEvents_mouse_coalescing
      { modmap := [], keymapTable := [], virtualModifiers := [] }
      baseState 0 [Event.relativeEvent 1 5, Event.relativeEvent 8 3] rfl).1,
   (onEvents_mouse_coalescing
      { modmap := [], keymapTable := [], virtualModifiers := [] }
      baseState 0 [Event.relativeEvent 1 5, Event.relativeEvent 8 3] rfl).2.1
     [(1, 5)] (by decide),
   (onEvents_mouse_coalescing
      { modmap := [], keymapTable := [], virtualModifiers := [] }
      baseState 0 [Event.relativeEvent 1 5, Event.relativeEvent 8 3] rfl).2.2
     8 3 (by decide)⟩

end Xremap
